import Mathlib

set_option maxRecDepth 8000

namespace OrbitLive

/-!
Shallow embedding of the live-functions view engine of the Orbit profiler
(file src/OrbitGl: the LiveFunctionsDataView implementation).  Machine
integers are modelled as Nat, with an explicit modulus where uint64
overflow matters; strings are lists of characters; the CHECK macro and
out-of-bounds vector accesses are modelled through an explicit Fault sum.
Collaborator code that is not part of the tree (CoreUtils ToLower,
orbit_core Compare, FunctionUtils, CaptureData accessors, the DataView
base class) is modelled from the spec where marked.
-/

/-- Modelled from the spec: ToLower (CoreUtils, not in the tree) lower-cases
ASCII letters and leaves every other character unchanged. -/
def toLowerChar (c : Char) : Char :=
  if 65 ≤ c.toNat ∧ c.toNat ≤ 90 then Char.ofNat (c.toNat + 32) else c

/-- ToLower applied to a whole string. -/
def toLowerStr (l : List Char) : List Char := l.map toLowerChar

/-- Splitting on a delimiter predicate with absl StrSplit semantics: every
delimiter occurrence separates, empty pieces are kept, and the empty input
yields one empty piece. -/
def splitBy (p : Char → Bool) : List Char → List (List Char)
  | [] => [[]]
  | c :: rest =>
    match splitBy p rest with
    | [] => [[c]]
    | piece :: pieces => if p c then [] :: piece :: pieces else (c :: piece) :: pieces

/-- Test whether the first string occurs at the start of the second. -/
def leadsOf : List Char → List Char → Bool
  | [], _ => true
  | _ :: _, [] => false
  | a :: s, b :: t => a == b && leadsOf s t

/-- Occurrence test mirroring name.find(token) != npos on std::string: the
token occurs somewhere in the string (the empty token always occurs). -/
def isSubstr : List Char → List Char → Bool
  | t, [] => t.isEmpty
  | t, b :: rest => leadsOf t (b :: rest) || isSubstr t rest

/-- Strict lexicographic comparison of strings by character code, mirroring
operator less-than on std::string. -/
def lexLt : List Char → List Char → Bool
  | _, [] => false
  | [], _ :: _ => true
  | a :: s, b :: t => if a < b then true else if b < a then false else lexLt s t

/-- Protobuf message FunctionStats: per-function aggregate statistics. -/
structure FunctionStats where
  count : Nat
  total_time_ns : Nat
  average_time_ns : Nat
  min_ns : Nat
  max_ns : Nat
deriving DecidableEq

/-- The zero-valued statistics record used by the or-default lookup. -/
def FunctionStats.zero : FunctionStats := ⟨0, 0, 0, 0, 0⟩

/-- Protobuf message FunctionInfo: identity record of an instrumentable
function.  The orbit_type field drives the IsOrbitFunc exclusion predicate
(zero encodes kNone, any other value an internal instrumentation function). -/
structure FunctionInfo where
  address : Nat
  pretty_name : List Char
  loaded_module_path : List Char
  orbit_type : Nat
deriving DecidableEq

/-- Placeholder record used only to express C++ operator[] accesses through
getD; every in-range access is independent of it. -/
def FunctionInfo.default : FunctionInfo := ⟨0, [], [], 0⟩

/-- Modelled from the spec: the named exclusion predicate for internal
instrumentation-only functions (function_utils IsOrbitFunc, not in the
tree): true exactly when orbit_type is not kNone. -/
def isOrbitFunc (f : FunctionInfo) : Bool := f.orbit_type != 0

/-- Modelled from the spec: the display name of a function
(function_utils GetDisplayName, not in the tree). -/
def getDisplayName (f : FunctionInfo) : List Char := f.pretty_name

/-- Modelled from the spec: the loaded module display string of a function
(function_utils GetLoadedModuleName, not in the tree): the last component of
the loaded module path. -/
def getLoadedModuleName (f : FunctionInfo) : List Char :=
  (splitBy (fun c => c == '/') f.loaded_module_path).getLastD []

/-- The capture-side data this view reads (CaptureData, not in the tree,
modelled from the spec): the key set of selected functions, the per-function
statistics store, and the absolute-address mapping, all keyed by the
(relative) function address. -/
structure CaptureData where
  selected_functions : List (Nat × FunctionInfo)
  function_stats : List (Nat × FunctionStats)
  absolute_addresses : List (Nat × Nat)

/-- Modelled from the spec: GetStatsOrDefault returns a zero-valued stats
record, not an error, when no intervals have been recorded yet. -/
def getFunctionStatsOrDefault (cd : CaptureData) (f : FunctionInfo) : FunctionStats :=
  (cd.function_stats.lookup f.address).getD FunctionStats.zero

/-- Modelled from the spec: GetAbsoluteAddress maps a descriptor to its
stable absolute address (an opaque per-capture mapping). -/
def getAbsoluteAddress (cd : CaptureData) (f : FunctionInfo) : Nat :=
  (cd.absolute_addresses.lookup f.address).getD f.address

/-- The nine display columns of the view, in source order. -/
inductive Column
  | selected
  | name
  | count
  | timeTotal
  | timeAvg
  | timeMin
  | timeMax
  | module
  | address
deriving DecidableEq

/-- The per-column default sorting orders from GetColumns (true encodes
kAscending). -/
def defaultSortingOrders : Column → Bool
  | Column.selected => false
  | Column.name => true
  | Column.count => false
  | Column.timeTotal => false
  | Column.timeAvg => false
  | Column.timeMin => false
  | Column.timeMax => false
  | Column.module => true
  | Column.address => true

/-- The state of a LiveFunctionsDataView together with the app-side state it
reads: capture-session flags, the hooked-function set, the capture data, the
tracked-function sequence, the VisibleSet of indices, the filter string, and
the sorting state remembered per column. -/
structure ViewState where
  has_capture_data : Bool
  is_capturing : Bool
  selected_function_addresses : List Nat
  capture_data : CaptureData
  functions : List FunctionInfo
  indices : List Nat
  filter : List Char
  sorting_column : Column
  sorting_orders : Column → Bool
  update_period_ms : Nat

/-- Modelled from the spec: IsFunctionSelected (hooking state, owned by the
app) tests membership of the function address in the hooked set. -/
def isFunctionSelected (s : ViewState) (f : FunctionInfo) : Bool :=
  s.selected_function_addresses.contains f.address

/-- Modelled from the spec: GetNumElements (DataView base, not in the tree)
is the current visible count, the size of the VisibleSet. -/
def getNumElements (s : ViewState) : Nat := s.indices.length

/-- The tokens DoFilter actually matches against: ToLower of the filter
string split by absl StrSplit on the space character. -/
def filterTokens (filter : List Char) : List (List Char) :=
  splitBy (fun c => c == ' ') (toLowerStr filter)

/-- The per-function keep test of the DoFilter loop: every token occurs in
the lower-cased display name. -/
def matchesFilter (filter : List Char) (f : FunctionInfo) : Bool :=
  (filterTokens filter).all (fun t => isSubstr t (toLowerStr (getDisplayName f)))

/-- DoFilter: recomputes the VisibleSet from scratch by the token test, then
emits the set of absolute addresses of the kept functions to the app
(SetVisibleFunctions).  The second component is the emitted address set
(none on the no-capture-data early return, which emits nothing; on that
branch the source also CHECKs that the tracked sequence is empty). -/
def doFilter (s : ViewState) : ViewState × Option (List Nat) :=
  if s.has_capture_data = false then (s, none)
  else
    let keep : Nat → Bool := fun i => matchesFilter s.filter (s.functions.getD i FunctionInfo.default)
    let newIndices := (List.range s.functions.length).filter keep
    let emitted := newIndices.map (fun j => getAbsoluteAddress s.capture_data (s.functions.getD j FunctionInfo.default))
    ({ s with indices := newIndices }, some emitted)

/-- The whitespace-delimiter predicate used by the spec wording. -/
def isWhiteSpaceChar (c : Char) : Bool := c == ' ' || c == '\t' || c == '\n' || c == '\r'

/-- The filter-keep rule exactly as the spec words it, for the refinement
comparison: tokens separated by whitespace (not only by the space character),
each required to occur in the lower-cased display name. -/
def claimFilterKeeps (filter : List Char) (f : FunctionInfo) : Bool :=
  (splitBy isWhiteSpaceChar (toLowerStr filter)).all
    (fun t => isSubstr t (toLowerStr (getDisplayName f)))

/-- The empty token occurs in every string. -/
theorem isSubstr_nil (l : List Char) : isSubstr [] l = true := by
  cases l <;> simp [isSubstr, leadsOf, List.isEmpty]

/-- Splitting the empty string yields one empty piece. -/
theorem filterTokens_nil : filterTokens [] = [[]] := rfl

/-- Membership characterisation of the VisibleSet recomputed by DoFilter. -/
theorem doFilter_mem_indices (s : ViewState) (h : s.has_capture_data = true) (i : Nat)
    (hi : i < s.functions.length) :
    i ∈ (doFilter s).1.indices ↔
      ∀ t ∈ filterTokens s.filter,
        isSubstr t (toLowerStr (getDisplayName (s.functions.getD i FunctionInfo.default))) = true := by
  unfold doFilter
  rw [h]
  simp only [Bool.true_eq_false, if_false, List.mem_filter, List.mem_range]
  rw [matchesFilter, List.all_eq_true]
  exact ⟨fun hx => hx.2, fun hx => ⟨hi, hx⟩⟩

/-- With the empty filter every tracked row is kept. -/
theorem doFilter_empty_keeps_all (s : ViewState) (h : s.has_capture_data = true)
    (hf : s.filter = []) :
    (doFilter s).1.indices = List.range s.functions.length := by
  unfold doFilter
  rw [h]
  simp only [Bool.true_eq_false, if_false]
  rw [List.filter_eq_self]
  intro i _
  rw [matchesFilter, hf, filterTokens_nil, List.all_eq_true]
  intro t ht
  simp only [List.mem_singleton] at ht
  subst ht
  exact isSubstr_nil _

/-- OnDataChanged: clears the tracked-function sequence and the VisibleSet;
with capture data present it resizes the VisibleSet to the size of the full
selected-function key set (value-initialising new entries to zero), then
walks the key set, skipping IsOrbitFunc entries and otherwise appending the
function and writing the running index i at position i.  The final call to
the DataView base OnDataChanged is modelled from the spec as a no-op
(reapplies no filter or sort). -/
def onDataChanged (s : ViewState) : ViewState :=
  let s0 := { s with functions := ([] : List FunctionInfo), indices := ([] : List Nat) }
  if s.has_capture_data = false then s0
  else
    let sel := s.capture_data.selected_functions
    let start : List FunctionInfo × List Nat × Nat := ([], List.replicate sel.length 0, 0)
    let result := sel.foldl
      (fun acc pair =>
        if isOrbitFunc pair.2 = true then acc
        else (acc.1 ++ [pair.2], acc.2.1.set acc.2.2 acc.2.2, acc.2.2 + 1))
      start
    { s0 with functions := result.1, indices := result.2.1 }

/-- Abnormal outcomes of a view call: a CHECK assertion firing, or an
unchecked out-of-bounds vector access (undefined behaviour in the source). -/
inductive Fault
  | checkFailed
  | outOfBoundsRead
deriving DecidableEq

deriving instance DecidableEq for Except

/-- GetSelectedFunction: CHECKs the row against the size of the
tracked-function sequence (not against the visible count), then reads
indices_[row] and functions_[indices_[row]]; either vector read can be out
of bounds when the two sequences have different lengths. -/
def getSelectedFunction (s : ViewState) (row : Nat) : Except Fault FunctionInfo :=
  if row < s.functions.length then
    match s.indices[row]? with
    | none => Except.error Fault.outOfBoundsRead
    | some j =>
      match s.functions[j]? with
      | none => Except.error Fault.outOfBoundsRead
      | some f => Except.ok f
  else Except.error Fault.checkFailed

/-- Modelled from the spec: human-friendly duration rendering
(GetPrettyTime, not in the tree); only its shape matters to the claims. -/
def prettyTime (ns : Nat) : List Char := Nat.toDigits 10 ns ++ [' ', 'n', 's']

/-- Modelled from the spec: the hooked-state marker rendered in the boolean
column (FunctionsDataView BuildSelectedColumnsString, not in the tree). -/
def buildSelectedColumnsString (s : ViewState) (f : FunctionInfo) : List Char :=
  if isFunctionSelected s f = true then ['X'] else []

/-- Hexadecimal rendering with the 0x prefix (StrFormat 0x%llx). -/
def natHex (n : Nat) : List Char := '0' :: 'x' :: Nat.toDigits 16 n

/-- GetValue: returns the empty string when no capture data exists or the
row is at or beyond the visible count, and otherwise renders the cell from
the selected function and its or-default statistics. -/
def getValue (s : ViewState) (row : Nat) (col : Column) : Except Fault (List Char) :=
  if s.has_capture_data = false then Except.ok []
  else if getNumElements s ≤ row then Except.ok []
  else
    match getSelectedFunction s row with
    | Except.error e => Except.error e
    | Except.ok f =>
      let stats := getFunctionStatsOrDefault s.capture_data f
      Except.ok (match col with
        | Column.selected => buildSelectedColumnsString s f
        | Column.name => getDisplayName f
        | Column.count => Nat.toDigits 10 stats.count
        | Column.timeTotal => prettyTime stats.total_time_ns
        | Column.timeAvg => prettyTime stats.average_time_ns
        | Column.timeMin => prettyTime stats.min_ns
        | Column.timeMax => prettyTime stats.max_ns
        | Column.module => f.loaded_module_path
        | Column.address => natHex (getAbsoluteAddress s.capture_data f))

/-- Example function whose display name is the two-character string ab. -/
def cexFn : FunctionInfo := { address := 7, pretty_name := ['a', 'b'], loaded_module_path := [], orbit_type := 0 }

/-- Example view state holding cexFn with a tab-separated filter string. -/
def cexState : ViewState :=
  { has_capture_data := true
    is_capturing := false
    selected_function_addresses := []
    capture_data := ⟨[], [], []⟩
    functions := [cexFn]
    indices := [0]
    filter := ['a', '\t', 'b']
    sorting_column := Column.name
    sorting_orders := defaultSortingOrders
    update_period_ms := 300 }

/-- Example function whose display name is barfoo. -/
def wFn : FunctionInfo := { address := 9, pretty_name := ['b', 'a', 'r', 'f', 'o', 'o'], loaded_module_path := [], orbit_type := 0 }

/-- Example view state holding wFn with the two-token filter foo bar. -/
def wState : ViewState :=
  { has_capture_data := true
    is_capturing := false
    selected_function_addresses := []
    capture_data := ⟨[], [], []⟩
    functions := [wFn]
    indices := [0]
    filter := ['f', 'o', 'o', ' ', 'b', 'a', 'r']
    sorting_column := Column.name
    sorting_orders := defaultSortingOrders
    update_period_ms := 300 }

/-- C2, counterexample to the claim as stated: with the filter string a-tab-b,
every whitespace-separated token of the claim (a and b, lower-cased) is a
substring of the display name ab, so the claim requires the row to be kept;
DoFilter, which splits on the space character only, matches the single token
a-tab-b against the name and drops the row. -/
theorem doFilter_whitespace_claim_cex :
    claimFilterKeeps cexState.filter cexFn = true ∧ ¬ (0 ∈ (doFilter cexState).1.indices) := by
  decide

/-- C2 (amended): DoFilter keeps a tracked function in the VisibleSet if and
only if every token of the filter obtained by splitting on the space
character (not on general whitespace), lower-cased, is a substring of the
lower-cased display name; the empty filter keeps all tracked rows. -/
theorem doFilter_space_token_semantics (s : ViewState) (h : s.has_capture_data = true)
    (i : Nat) (hi : i < s.functions.length) :
    (i ∈ (doFilter s).1.indices ↔
      ∀ t ∈ filterTokens s.filter,
        isSubstr t (toLowerStr (getDisplayName (s.functions.getD i FunctionInfo.default))) = true) ∧
    (s.filter = [] → (doFilter s).1.indices = List.range s.functions.length) :=
  ⟨doFilter_mem_indices s h i hi, doFilter_empty_keeps_all s h⟩

/-- C2, witness: the amended claim instantiated on the two-token filter
foo bar against the display name barfoo. -/
theorem doFilter_space_token_semantics_witness :
    wState.has_capture_data = true ∧ 0 < wState.functions.length ∧
      ((0 ∈ (doFilter wState).1.indices ↔
        ∀ t ∈ filterTokens wState.filter,
          isSubstr t (toLowerStr (getDisplayName (wState.functions.getD 0 FunctionInfo.default))) = true) ∧
      (wState.filter = [] → (doFilter wState).1.indices = List.range wState.functions.length)) :=
  ⟨rfl, by decide, doFilter_space_token_semantics wState rfl 0 (by decide)⟩

/-- Example internal instrumentation function (IsOrbitFunc holds). -/
def c1Internal : FunctionInfo := { address := 1, pretty_name := ['f'], loaded_module_path := [], orbit_type := 1 }

/-- Example ordinary user function (IsOrbitFunc does not hold). -/
def c1Normal : FunctionInfo := { address := 2, pretty_name := ['g'], loaded_module_path := [], orbit_type := 0 }

/-- Example view state whose selected-function key set pairs one internal
function with one ordinary function. -/
def c1State : ViewState :=
  { has_capture_data := true
    is_capturing := false
    selected_function_addresses := []
    capture_data := ⟨[(1, c1Internal), (2, c1Normal)], [], []⟩
    functions := []
    indices := []
    filter := []
    sorting_column := Column.name
    sorting_orders := defaultSortingOrders
    update_period_ms := 300 }

/-- Example view state whose selected-function key set holds two internal
functions only, both excluded by IsOrbitFunc. -/
def c1StateAll : ViewState :=
  { c1State with capture_data := ⟨[(1, c1Internal), (3, { c1Internal with address := 3 })], [], []⟩ }

/-- C1, code bug shown at the failing input: with one IsOrbitFunc-excluded
function in the key set, OnDataChanged resizes the VisibleSet to the full
key-set size before skipping the excluded entry, leaving indices_=[0, 0]:
two entries (one a stale duplicate zero) over a single tracked function,
not the identity permutation [0] the spec invariant requires; with every
function excluded the two leftover zero entries are not even valid indices
into the empty tracked sequence. -/
theorem onDataChanged_exclusion_bug :
    (onDataChanged c1State).functions = [c1Normal] ∧
    (onDataChanged c1State).indices = [0, 0] ∧
    (onDataChanged c1State).indices ≠ List.range (onDataChanged c1State).functions.length ∧
    (onDataChanged c1StateAll).functions = [] ∧
    (onDataChanged c1StateAll).indices = [0, 0] := by
  decide

/-- Example filtered view state: two tracked functions of which the filter
kept only one, so the visible count is one while the tracked count is two. -/
def c4State : ViewState :=
  { has_capture_data := true
    is_capturing := false
    selected_function_addresses := []
    capture_data := ⟨[], [], []⟩
    functions := [wFn, cexFn]
    indices := [0]
    filter := ['b', 'a', 'r']
    sorting_column := Column.name
    sorting_orders := defaultSortingOrders
    update_period_ms := 300 }

/-- C4, code bug shown at the failing input: in a filtered state with
visible count one and tracked count two, the claim says row 1 must fail the
precondition CHECK; GetSelectedFunction instead CHECKs the row against the
tracked count (2), passes, and performs an unchecked out-of-bounds read of
indices_[1].  In-bounds rows are returned through the VisibleSet. -/
theorem getSelectedFunction_bounds_bug :
    getNumElements c4State = 1 ∧
    getSelectedFunction c4State 1 = Except.error Fault.outOfBoundsRead ∧
    getSelectedFunction c4State 1 ≠ Except.error Fault.checkFailed ∧
    getSelectedFunction c4State 0 = Except.ok wFn := by
  decide

/-- Example view state before any capture session exists. -/
def noCaptureState : ViewState :=
  { has_capture_data := false
    is_capturing := false
    selected_function_addresses := []
    capture_data := ⟨[], [], []⟩
    functions := []
    indices := []
    filter := []
    sorting_column := Column.name
    sorting_orders := defaultSortingOrders
    update_period_ms := 300 }

/-- C6, counterexample to the claim as stated: querying a cell before any
session data exists, and querying a cell at an out-of-range row, both return
the empty-string sentinel value instead of failing loudly. -/
theorem getValue_sentinel_cex :
    (noCaptureState.has_capture_data = false ∧
      getValue noCaptureState 0 Column.name = Except.ok []) ∧
    (getNumElements c4State ≤ 5 ∧ getValue c4State 5 Column.name = Except.ok []) := by
  decide

/-- C6 (amended): GetValue returns the empty-string sentinel, not a loud
failure, both when no capture data exists and when the row is at or beyond
the visible count; only GetSelectedFunction fails assertion-style, and its
precondition is the tracked-function count. -/
theorem getValue_precondition_model (s : ViewState) (row : Nat) (col : Column) :
    (s.has_capture_data = false → getValue s row col = Except.ok []) ∧
    (getNumElements s ≤ row → getValue s row col = Except.ok []) ∧
    (s.functions.length ≤ row → getSelectedFunction s row = Except.error Fault.checkFailed) := by
  refine ⟨fun h => ?_, fun h => ?_, fun h => ?_⟩
  · unfold getValue
    rw [h]
    simp
  · unfold getValue
    by_cases hc : s.has_capture_data = false <;> simp [hc, h]
  · unfold getSelectedFunction
    rw [if_neg (Nat.not_lt.mpr h)]

/-- C6, witness: the amended claim instantiated on the pre-session state. -/
theorem getValue_precondition_model_witness :
    getValue noCaptureState 0 Column.name = Except.ok [] ∧
    getSelectedFunction noCaptureState 0 = Except.error Fault.checkFailed :=
  ⟨(getValue_precondition_model noCaptureState 0 Column.name).1 rfl,
   (getValue_precondition_model noCaptureState 0 Column.name).2.2 (by decide)⟩

/-- C8: after a filter recomputation with capture data present, the address
set handed to SetVisibleFunctions holds exactly the absolute addresses of
the functions kept by the filter. -/
theorem doFilter_emits_visible_addresses (s : ViewState) (h : s.has_capture_data = true) :
    ∃ emitted, (doFilter s).2 = some emitted ∧
      ∀ a : Nat, a ∈ emitted ↔
        ∃ i, i < s.functions.length ∧
          matchesFilter s.filter (s.functions.getD i FunctionInfo.default) = true ∧
          getAbsoluteAddress s.capture_data (s.functions.getD i FunctionInfo.default) = a := by
  unfold doFilter
  rw [h]
  simp only [Bool.true_eq_false, if_false]
  refine ⟨_, rfl, fun a => ?_⟩
  simp only [List.mem_map, List.mem_filter, List.mem_range]
  constructor
  · rintro ⟨i, ⟨hi, hk⟩, ha⟩
    exact ⟨i, hi, hk, ha⟩
  · rintro ⟨i, hi, hk, ha⟩
    exact ⟨i, ⟨hi, hk⟩, ha⟩

/-- C8, witness: the emitted-set characterisation instantiated on the
two-token filter state. -/
theorem doFilter_emits_visible_addresses_witness :
    wState.has_capture_data = true ∧
      ∃ emitted, (doFilter wState).2 = some emitted ∧
        ∀ a : Nat, a ∈ emitted ↔
          ∃ i, i < wState.functions.length ∧
            matchesFilter wState.filter (wState.functions.getD i FunctionInfo.default) = true ∧
            getAbsoluteAddress wState.capture_data (wState.functions.getD i FunctionInfo.default) = a :=
  ⟨rfl, doFilter_emits_visible_addresses wState rfl⟩

/-- One recorded timer (the TimerInfo of a TextBox): function address and
start and end timestamps, all uint64 values. -/
structure TimerInfo where
  function_address : Nat
  start : Nat
  end_ : Nat
deriving DecidableEq

/-- The elapsed nanoseconds computed by GetMinMax: uint64 subtraction of the
start from the end timestamp, wrapping modulo two to the sixty-fourth. -/
def elapsedNanos (t : TimerInfo) : Nat := (t.end_ + 2 ^ 64 - t.start) % 2 ^ 64

/-- The running-minimum update of the GetMinMax scan: a box replaces the
current minimum exactly when it is the first match or strictly smaller. -/
def updateMin (acc : Option TimerInfo) (b : TimerInfo) : Option TimerInfo :=
  match acc with
  | none => some b
  | some m => if elapsedNanos b < elapsedNanos m then some b else some m

/-- The running-maximum update of the GetMinMax scan: a box replaces the
current maximum exactly when it is the first match or strictly larger. -/
def updateMax (acc : Option TimerInfo) (b : TimerInfo) : Option TimerInfo :=
  match acc with
  | none => some b
  | some m => if elapsedNanos m < elapsedNanos b then some b else some m

/-- The per-box body of the GetMinMax triple loop: boxes with a different
function address leave the accumulator unchanged. -/
def scanBlock (addr : Nat) (acc : Option TimerInfo × Option TimerInfo) (b : TimerInfo) :
    Option TimerInfo × Option TimerInfo :=
  if b.function_address = addr then (updateMin acc.1 b, updateMax acc.2 b) else acc

/-- GetMinMax: scans every thread chain (null chains skipped), every block,
every box, folding the min and max updates left to right. -/
def getMinMax (chains : List (Option (List (List TimerInfo)))) (addr : Nat) :
    Option TimerInfo × Option TimerInfo :=
  chains.foldl
    (fun acc oc =>
      match oc with
      | none => acc
      | some chain => chain.foldl (fun acc2 block => block.foldl (scanBlock addr) acc2) acc)
    (none, none)

/-- All boxes of the non-null chains, block by block, in scan order. -/
def liveBoxes : List (Option (List (List TimerInfo))) → List TimerInfo
  | [] => []
  | none :: rest => liveBoxes rest
  | some chain :: rest => chain.flatten ++ liveBoxes rest

/-- The boxes with the queried function address, in scan order. -/
def matchingBoxes (chains : List (Option (List (List TimerInfo)))) (addr : Nat) :
    List TimerInfo :=
  (liveBoxes chains).filter (fun b => decide (b.function_address = addr))

/-- The min and max updates bundled, for reasoning about the filtered scan. -/
def updatePair (acc : Option TimerInfo × Option TimerInfo) (b : TimerInfo) :
    Option TimerInfo × Option TimerInfo :=
  (updateMin acc.1 b, updateMax acc.2 b)

/-- Folding the guarded per-box body over a list equals folding the plain
updates over the address-filtered list. -/
theorem foldl_scanBlock (addr : Nat) (l : List TimerInfo) (acc : Option TimerInfo × Option TimerInfo) :
    l.foldl (scanBlock addr) acc =
      (l.filter (fun b => decide (b.function_address = addr))).foldl updatePair acc := by
  induction l generalizing acc with
  | nil => rfl
  | cons b l ih =>
    by_cases hb : b.function_address = addr
    · rw [List.filter_cons_of_pos (by simpa using hb)]
      simp only [List.foldl_cons]
      rw [ih]
      congr 1
      rw [scanBlock, if_pos hb]
      rfl
    · rw [List.filter_cons_of_neg (by simpa using hb)]
      simp only [List.foldl_cons]
      rw [scanBlock, if_neg hb]
      exact ih acc

/-- Folding block by block equals folding over the flattened block list. -/
theorem foldl_blocks (addr : Nat) (blocks : List (List TimerInfo))
    (acc : Option TimerInfo × Option TimerInfo) :
    blocks.foldl (fun acc2 block => block.foldl (scanBlock addr) acc2) acc
      = blocks.flatten.foldl (scanBlock addr) acc := by
  induction blocks generalizing acc with
  | nil => rfl
  | cons blk rest ih => simp only [List.foldl_cons, List.flatten_cons, List.foldl_append, ih]

/-- Folding chain by chain equals folding over the fully flattened box list. -/
theorem foldl_chains (addr : Nat) (chains : List (Option (List (List TimerInfo))))
    (acc : Option TimerInfo × Option TimerInfo) :
    chains.foldl
        (fun acc oc =>
          match oc with
          | none => acc
          | some chain => chain.foldl (fun acc2 block => block.foldl (scanBlock addr) acc2) acc)
        acc
      = (liveBoxes chains).foldl (scanBlock addr) acc := by
  induction chains generalizing acc with
  | nil => rfl
  | cons oc rest ih =>
    cases oc with
    | none => exact ih acc
    | some chain =>
      show List.foldl _
          (chain.foldl (fun acc2 block => block.foldl (scanBlock addr) acc2) acc) rest
        = List.foldl (scanBlock addr) acc (chain.flatten ++ liveBoxes rest)
      rw [foldl_blocks, ih, List.foldl_append]

/-- GetMinMax equals the plain min and max fold over the matching boxes. -/
theorem getMinMax_eq_fold (chains : List (Option (List (List TimerInfo)))) (addr : Nat) :
    getMinMax chains addr = (matchingBoxes chains addr).foldl updatePair (none, none) := by
  rw [getMinMax, foldl_chains, foldl_scanBlock, matchingBoxes]

/-- The bundled fold computes the min fold and the max fold independently. -/
theorem foldl_updatePair_split (l : List TimerInfo) (a b : Option TimerInfo) :
    l.foldl updatePair (a, b) = (l.foldl updateMin a, l.foldl updateMax b) := by
  induction l generalizing a b with
  | nil => rfl
  | cons x l ih => simp only [List.foldl_cons, updatePair, ih]

/-- The two-argument minimum keeping the earlier box on ties. -/
def pickMin (m b : TimerInfo) : TimerInfo :=
  if elapsedNanos b < elapsedNanos m then b else m

/-- The two-argument maximum keeping the earlier box on ties. -/
def pickMax (m b : TimerInfo) : TimerInfo :=
  if elapsedNanos m < elapsedNanos b then b else m

/-- A box is the first minimum of a list: it splits the list so that every
earlier box is strictly larger and every later box no smaller. -/
def IsFirstMin (l : List TimerInfo) (m : TimerInfo) : Prop :=
  ∃ l₁ l₂, l = l₁ ++ m :: l₂ ∧ (∀ x ∈ l₁, elapsedNanos m < elapsedNanos x) ∧
    (∀ x ∈ l₂, elapsedNanos m ≤ elapsedNanos x)

/-- A box is the first maximum of a list: it splits the list so that every
earlier box is strictly smaller and every later box no larger. -/
def IsFirstMax (l : List TimerInfo) (m : TimerInfo) : Prop :=
  ∃ l₁ l₂, l = l₁ ++ m :: l₂ ∧ (∀ x ∈ l₁, elapsedNanos x < elapsedNanos m) ∧
    (∀ x ∈ l₂, elapsedNanos x ≤ elapsedNanos m)

/-- Folding the running-minimum update from a seeded accumulator computes
the two-argument minimum fold. -/
theorem foldl_updateMin_some (l : List TimerInfo) :
    ∀ m, l.foldl updateMin (some m) = some (l.foldl pickMin m) := by
  induction l with
  | nil => intro m; rfl
  | cons b l ih =>
    intro m
    simp only [List.foldl_cons]
    have h : updateMin (some m) b = some (pickMin m b) := by
      rw [updateMin, pickMin]
      exact (apply_ite some _ _ _).symm
    rw [h, ih]

/-- Folding the running-maximum update from a seeded accumulator computes
the two-argument maximum fold. -/
theorem foldl_updateMax_some (l : List TimerInfo) :
    ∀ m, l.foldl updateMax (some m) = some (l.foldl pickMax m) := by
  induction l with
  | nil => intro m; rfl
  | cons b l ih =>
    intro m
    simp only [List.foldl_cons]
    have h : updateMax (some m) b = some (pickMax m b) := by
      rw [updateMax, pickMax]
      exact (apply_ite some _ _ _).symm
    rw [h, ih]

/-- In a decomposition whose left part is strictly larger than the witness,
the witness is no larger than the head of the decomposed list. -/
theorem elapsed_le_head_of_decomp {g b : TimerInfo} {rest l₁ l₂ : List TimerInfo}
    (heq : b :: rest = l₁ ++ g :: l₂)
    (h₁ : ∀ x ∈ l₁, elapsedNanos g < elapsedNanos x) :
    elapsedNanos g ≤ elapsedNanos b := by
  cases l₁ with
  | nil =>
    simp only [List.nil_append] at heq
    injection heq with h1 h2
    rw [h1]
  | cons y ys =>
    simp only [List.cons_append] at heq
    injection heq with h1 h2
    rw [h1]
    exact le_of_lt (h₁ y (List.mem_cons_self y ys))

/-- In a decomposition whose left part is strictly smaller than the witness,
the witness is no smaller than the head of the decomposed list. -/
theorem elapsed_ge_head_of_decomp {g b : TimerInfo} {rest l₁ l₂ : List TimerInfo}
    (heq : b :: rest = l₁ ++ g :: l₂)
    (h₁ : ∀ x ∈ l₁, elapsedNanos x < elapsedNanos g) :
    elapsedNanos b ≤ elapsedNanos g := by
  cases l₁ with
  | nil =>
    simp only [List.nil_append] at heq
    injection heq with h1 h2
    rw [h1]
  | cons y ys =>
    simp only [List.cons_append] at heq
    injection heq with h1 h2
    rw [h1]
    exact le_of_lt (h₁ y (List.mem_cons_self y ys))

/-- The two-argument minimum fold finds the first minimum of the seeded
list. -/
theorem foldl_pickMin_isFirstMin (l : List TimerInfo) :
    ∀ m, IsFirstMin (m :: l) (l.foldl pickMin m) := by
  induction l with
  | nil =>
    intro m
    exact ⟨[], [], rfl, by simp, by simp⟩
  | cons b rest ih =>
    intro m
    simp only [List.foldl_cons]
    by_cases hb : elapsedNanos b < elapsedNanos m
    · have hpb : pickMin m b = b := by rw [pickMin, if_pos hb]
      rw [hpb]
      obtain ⟨l₁, l₂, heq, h₁, h₂⟩ := ih b
      refine ⟨m :: l₁, l₂, ?_, ?_, h₂⟩
      · rw [List.cons_append, ← heq]
      · intro x hx
        rcases List.mem_cons.mp hx with hxm | hxl
        · subst hxm
          exact lt_of_le_of_lt (elapsed_le_head_of_decomp heq h₁) hb
        · exact h₁ x hxl
    · have hpb : pickMin m b = m := by rw [pickMin, if_neg hb]
      rw [hpb]
      obtain ⟨l₁, l₂, heq, h₁, h₂⟩ := ih m
      cases l₁ with
      | nil =>
        simp only [List.nil_append] at heq
        injection heq with h1 h2
        refine ⟨[], b :: rest, ?_, by simp, ?_⟩
        · rw [List.nil_append, ← h1]
        · intro x hx
          rcases List.mem_cons.mp hx with hxb | hxr
          · subst hxb
            rw [← h1]
            exact Nat.le_of_not_lt hb
          · exact h₂ x (h2 ▸ hxr)
      | cons y ys =>
        simp only [List.cons_append] at heq
        injection heq with h1 h2
        rw [← h1] at h₁
        refine ⟨m :: b :: ys, l₂, ?_, ?_, h₂⟩
        · rw [List.cons_append, List.cons_append, ← h2]
        · intro x hx
          rcases List.mem_cons.mp hx with hxm | hx2
          · rw [hxm]
            exact h₁ m (List.mem_cons_self m ys)
          · rcases List.mem_cons.mp hx2 with hxb | hxy
            · rw [hxb]
              exact lt_of_lt_of_le (h₁ m (List.mem_cons_self m ys)) (Nat.le_of_not_lt hb)
            · exact h₁ x (List.mem_cons_of_mem m hxy)

/-- The two-argument maximum fold finds the first maximum of the seeded
list. -/
theorem foldl_pickMax_isFirstMax (l : List TimerInfo) :
    ∀ m, IsFirstMax (m :: l) (l.foldl pickMax m) := by
  induction l with
  | nil =>
    intro m
    exact ⟨[], [], rfl, by simp, by simp⟩
  | cons b rest ih =>
    intro m
    simp only [List.foldl_cons]
    by_cases hb : elapsedNanos m < elapsedNanos b
    · have hpb : pickMax m b = b := by rw [pickMax, if_pos hb]
      rw [hpb]
      obtain ⟨l₁, l₂, heq, h₁, h₂⟩ := ih b
      refine ⟨m :: l₁, l₂, ?_, ?_, h₂⟩
      · rw [List.cons_append, ← heq]
      · intro x hx
        rcases List.mem_cons.mp hx with hxm | hxl
        · subst hxm
          exact lt_of_lt_of_le hb (elapsed_ge_head_of_decomp heq h₁)
        · exact h₁ x hxl
    · have hpb : pickMax m b = m := by rw [pickMax, if_neg hb]
      rw [hpb]
      obtain ⟨l₁, l₂, heq, h₁, h₂⟩ := ih m
      cases l₁ with
      | nil =>
        simp only [List.nil_append] at heq
        injection heq with h1 h2
        refine ⟨[], b :: rest, ?_, by simp, ?_⟩
        · rw [List.nil_append, ← h1]
        · intro x hx
          rcases List.mem_cons.mp hx with hxb | hxr
          · subst hxb
            rw [← h1]
            exact Nat.le_of_not_lt hb
          · exact h₂ x (h2 ▸ hxr)
      | cons y ys =>
        simp only [List.cons_append] at heq
        injection heq with h1 h2
        rw [← h1] at h₁
        refine ⟨m :: b :: ys, l₂, ?_, ?_, h₂⟩
        · rw [List.cons_append, List.cons_append, ← h2]
        · intro x hx
          rcases List.mem_cons.mp hx with hxm | hx2
          · rw [hxm]
            exact h₁ m (List.mem_cons_self m ys)
          · rcases List.mem_cons.mp hx2 with hxb | hxy
            · rw [hxb]
              exact lt_of_le_of_lt (Nat.le_of_not_lt hb) (h₁ m (List.mem_cons_self m ys))
            · exact h₁ x (List.mem_cons_of_mem m hxy)

/-- The first projection of GetMinMax is the min fold over the matches. -/
theorem getMinMax_fst_eq (chains : List (Option (List (List TimerInfo)))) (addr : Nat) :
    (getMinMax chains addr).1 = (matchingBoxes chains addr).foldl updateMin none := by
  rw [getMinMax_eq_fold, foldl_updatePair_split]

/-- The second projection of GetMinMax is the max fold over the matches. -/
theorem getMinMax_snd_eq (chains : List (Option (List (List TimerInfo)))) (addr : Nat) :
    (getMinMax chains addr).2 = (matchingBoxes chains addr).foldl updateMax none := by
  rw [getMinMax_eq_fold, foldl_updatePair_split]

/-- The min fold yields null exactly on the empty match list. -/
theorem foldl_updateMin_none_none_iff (l : List TimerInfo) :
    l.foldl updateMin none = none ↔ l = [] := by
  cases l with
  | nil => simp
  | cons b rest =>
    simp only [List.foldl_cons]
    rw [show updateMin none b = some b from rfl, foldl_updateMin_some]
    simp

/-- The max fold yields null exactly on the empty match list. -/
theorem foldl_updateMax_none_none_iff (l : List TimerInfo) :
    l.foldl updateMax none = none ↔ l = [] := by
  cases l with
  | nil => simp
  | cons b rest =>
    simp only [List.foldl_cons]
    rw [show updateMax none b = some b from rfl, foldl_updateMax_some]
    simp

/-- A returned minimum is the first minimum of the matching boxes. -/
theorem getMinMax_fst_isFirstMin (chains : List (Option (List (List TimerInfo)))) (addr : Nat)
    (mn : TimerInfo) (h : (getMinMax chains addr).1 = some mn) :
    IsFirstMin (matchingBoxes chains addr) mn := by
  rw [getMinMax_fst_eq] at h
  cases hm : matchingBoxes chains addr with
  | nil =>
    rw [hm] at h
    exact absurd h (by simp)
  | cons b rest =>
    rw [hm] at h
    simp only [List.foldl_cons] at h
    rw [show updateMin none b = some b from rfl, foldl_updateMin_some] at h
    injection h with hh
    rw [← hh]
    exact foldl_pickMin_isFirstMin rest b

/-- A returned maximum is the first maximum of the matching boxes. -/
theorem getMinMax_snd_isFirstMax (chains : List (Option (List (List TimerInfo)))) (addr : Nat)
    (mx : TimerInfo) (h : (getMinMax chains addr).2 = some mx) :
    IsFirstMax (matchingBoxes chains addr) mx := by
  rw [getMinMax_snd_eq] at h
  cases hm : matchingBoxes chains addr with
  | nil =>
    rw [hm] at h
    exact absurd h (by simp)
  | cons b rest =>
    rw [hm] at h
    simp only [List.foldl_cons] at h
    rw [show updateMax none b = some b from rfl, foldl_updateMax_some] at h
    injection h with hh
    rw [← hh]
    exact foldl_pickMax_isFirstMax rest b

/-- A first minimum belongs to its list. -/
theorem isFirstMin_mem {l : List TimerInfo} {m : TimerInfo} (h : IsFirstMin l m) :
    m ∈ l := by
  obtain ⟨l₁, l₂, rfl, -, -⟩ := h
  exact List.mem_append_right l₁ (List.mem_cons_self m l₂)

/-- A first maximum belongs to its list. -/
theorem isFirstMax_mem {l : List TimerInfo} {m : TimerInfo} (h : IsFirstMax l m) :
    m ∈ l := by
  obtain ⟨l₁, l₂, rfl, -, -⟩ := h
  exact List.mem_append_right l₁ (List.mem_cons_self m l₂)

/-- A first minimum is no larger than every element of its list. -/
theorem IsFirstMin.le_all {l : List TimerInfo} {m : TimerInfo} (h : IsFirstMin l m) :
    ∀ x ∈ l, elapsedNanos m ≤ elapsedNanos x := by
  obtain ⟨l₁, l₂, rfl, h₁, h₂⟩ := h
  intro x hx
  rcases List.mem_append.mp hx with hx1 | hx2
  · exact le_of_lt (h₁ x hx1)
  · rcases List.mem_cons.mp hx2 with hxm | hxr
    · rw [hxm]
    · exact h₂ x hxr

/-- Every matching box carries the queried address. -/
theorem mem_matchingBoxes_address {chains : List (Option (List (List TimerInfo)))} {addr : Nat}
    {x : TimerInfo} (hx : x ∈ matchingBoxes chains addr) : x.function_address = addr := by
  have hp := List.of_mem_filter hx
  simpa using hp

/-- The example chain collection of the spec: the queried address 17 owns
the intervals (10,50), (5,5) and (100,130), interleaved with boxes of the
unrelated address 18 and a null chain. -/
def exChains : List (Option (List (List TimerInfo))) :=
  [some [[⟨17, 10, 50⟩, ⟨18, 3, 4⟩]], none, some [[⟨17, 5, 5⟩], [⟨18, 1, 9⟩, ⟨17, 100, 130⟩]]]

/-- C3, counterexample to the claim as stated: on exactly the intervals of
the example, (a,10,50),(a,5,5),(a,100,130) interleaved with another
address, the strictly largest duration is 40, from (10,50), so GetMinMax
returns the (10,50) interval as max and not the (100,130) interval of
duration 30 that the claim names; the min is (5,5) as claimed. -/
theorem getMinMax_example_cex :
    (getMinMax exChains 17).1 = some ⟨17, 5, 5⟩ ∧
    (getMinMax exChains 17).2 = some ⟨17, 10, 50⟩ ∧
    ¬ (getMinMax exChains 17).2 = some ⟨17, 100, 130⟩ ∧
    elapsedNanos ⟨17, 10, 50⟩ = 40 ∧ elapsedNanos ⟨17, 100, 130⟩ = 30 := by
  decide

/-- C3 (amended): GetMinMax returns null for both results exactly when no
interval matches the queried address; a returned min (resp. max) carries
the queried address and is the strictly smallest (resp. largest) duration
among the matches, keeping the earliest-seen interval on ties; on the
example intervals the min is (5,5) of duration 0 and the max is (10,50) of
duration 40, not (100,130). -/
theorem getMinMax_extremal (chains : List (Option (List (List TimerInfo)))) (addr : Nat) :
    (matchingBoxes chains addr = [] ↔ getMinMax chains addr = (none, none)) ∧
    (∀ mn, (getMinMax chains addr).1 = some mn →
      mn.function_address = addr ∧ IsFirstMin (matchingBoxes chains addr) mn) ∧
    (∀ mx, (getMinMax chains addr).2 = some mx →
      mx.function_address = addr ∧ IsFirstMax (matchingBoxes chains addr) mx) := by
  refine ⟨⟨fun h => ?_, fun h => ?_⟩, fun mn h => ?_, fun mx h => ?_⟩
  · rw [getMinMax_eq_fold, h]
    rfl
  · have h1 : (getMinMax chains addr).1 = none := by rw [h]
    rw [getMinMax_fst_eq] at h1
    exact (foldl_updateMin_none_none_iff _).mp h1
  · have hf := getMinMax_fst_isFirstMin chains addr mn h
    exact ⟨mem_matchingBoxes_address (isFirstMin_mem hf), hf⟩
  · have hf := getMinMax_snd_isFirstMax chains addr mx h
    exact ⟨mem_matchingBoxes_address (isFirstMax_mem hf), hf⟩

/-- C3, witness: the amended claim instantiated on the example chains. -/
theorem getMinMax_extremal_witness :
    (getMinMax exChains 17).1 = some ⟨17, 5, 5⟩ ∧
    ((⟨17, 5, 5⟩ : TimerInfo).function_address = 17 ∧
      IsFirstMin (matchingBoxes exChains 17) ⟨17, 5, 5⟩) ∧
    ((⟨17, 10, 50⟩ : TimerInfo).function_address = 17 ∧
      IsFirstMax (matchingBoxes exChains 17) ⟨17, 10, 50⟩) :=
  ⟨by decide, (getMinMax_extremal exChains 17).2.1 ⟨17, 5, 5⟩ (by decide),
    (getMinMax_extremal exChains 17).2.2 ⟨17, 10, 50⟩ (by decide)⟩

/-- C10: the min result of GetMinMax is null exactly when the max result
is; when both are returned they both carry the queried address and the min
duration is no larger than the max duration. -/
theorem getMinMax_null_consistency (chains : List (Option (List (List TimerInfo)))) (addr : Nat) :
    ((getMinMax chains addr).1 = none ↔ (getMinMax chains addr).2 = none) ∧
    (∀ mn mx, (getMinMax chains addr).1 = some mn → (getMinMax chains addr).2 = some mx →
      mn.function_address = addr ∧ mx.function_address = addr ∧
        elapsedNanos mn ≤ elapsedNanos mx) := by
  constructor
  · rw [getMinMax_fst_eq, getMinMax_snd_eq, foldl_updateMin_none_none_iff,
      foldl_updateMax_none_none_iff]
  · intro mn mx hmn hmx
    have h1 := getMinMax_fst_isFirstMin chains addr mn hmn
    have h2 := getMinMax_snd_isFirstMax chains addr mx hmx
    exact ⟨mem_matchingBoxes_address (isFirstMin_mem h1),
      mem_matchingBoxes_address (isFirstMax_mem h2),
      IsFirstMin.le_all h1 mx (isFirstMax_mem h2)⟩

/-- C10, witness: the consistency facts instantiated on the example
chains. -/
theorem getMinMax_null_consistency_witness :
    (⟨17, 5, 5⟩ : TimerInfo).function_address = 17 ∧
    (⟨17, 10, 50⟩ : TimerInfo).function_address = 17 ∧
    elapsedNanos ⟨17, 5, 5⟩ ≤ elapsedNanos ⟨17, 10, 50⟩ :=
  (getMinMax_null_consistency exChains 17).2 ⟨17, 5, 5⟩ ⟨17, 10, 50⟩ (by decide) (by decide)

/-- Modelled from the spec: the orbit_core Compare helper (CoreUtils, not
in the tree): a strict comparison whose ascending toggle flips the operand
order, not the input order. -/
def cmpB {K : Type} (klt : K → K → Bool) (asc : Bool) (x y : K) : Bool :=
  if asc then klt x y else klt y x

/-- Strict less-than on Nat as a Bool comparator. -/
def natLtB (a b : Nat) : Bool := decide (a < b)

/-- Strict less-than on Bool (false before true), as C++ compares bool. -/
def boolLtB (a b : Bool) : Bool := !a && b

/-- The row accessor functions_[i] used by the comparator lambdas. -/
def fnAt (s : ViewState) (i : Nat) : FunctionInfo := s.functions.getD i FunctionInfo.default

/-- The or-default statistics of row i used by the stat comparators. -/
def statsAt (s : ViewState) (i : Nat) : FunctionStats :=
  getFunctionStatsOrDefault s.capture_data (fnAt s i)

/-- The column comparator families of DoSort, one per column, each built
from orbit_core Compare over the column key of the two rows. -/
def sorterLt (s : ViewState) (col : Column) (asc : Bool) (a b : Nat) : Bool :=
  match col with
  | Column.selected =>
    cmpB boolLtB asc (isFunctionSelected s (fnAt s a)) (isFunctionSelected s (fnAt s b))
  | Column.name => cmpB lexLt asc (getDisplayName (fnAt s a)) (getDisplayName (fnAt s b))
  | Column.count => cmpB natLtB asc (statsAt s a).count (statsAt s b).count
  | Column.timeTotal => cmpB natLtB asc (statsAt s a).total_time_ns (statsAt s b).total_time_ns
  | Column.timeAvg => cmpB natLtB asc (statsAt s a).average_time_ns (statsAt s b).average_time_ns
  | Column.timeMin => cmpB natLtB asc (statsAt s a).min_ns (statsAt s b).min_ns
  | Column.timeMax => cmpB natLtB asc (statsAt s a).max_ns (statsAt s b).max_ns
  | Column.module => cmpB lexLt asc (getLoadedModuleName (fnAt s a)) (getLoadedModuleName (fnAt s b))
  | Column.address => cmpB natLtB asc (fnAt s a).address (fnAt s b).address

/-- DoSort: with capture data present, stable-sorts the VisibleSet with the
comparator of the active sorting column at its stored direction; without it
the state is unchanged (the source CHECKs the tracked sequence is empty on
that branch).  std::stable_sort with a strict weak comparator comp is
embedded as mergeSort with the total preorder le a b := not comp(b, a):
both orders place a before b exactly when comp(b, a) fails and both keep
equivalent elements in input order, which determines the output uniquely. -/
def doSort (s : ViewState) : ViewState :=
  if s.has_capture_data = false then s
  else
    let le := fun a b => ! sorterLt s s.sorting_column (s.sorting_orders s.sorting_column) b a
    { s with indices := s.indices.mergeSort le }

/-- Equality of the sort keys of two rows in the given column. -/
def sortKeyEqB (s : ViewState) (col : Column) (i j : Nat) : Bool :=
  match col with
  | Column.selected => decide (isFunctionSelected s (fnAt s i) = isFunctionSelected s (fnAt s j))
  | Column.name => decide (getDisplayName (fnAt s i) = getDisplayName (fnAt s j))
  | Column.count => decide ((statsAt s i).count = (statsAt s j).count)
  | Column.timeTotal => decide ((statsAt s i).total_time_ns = (statsAt s j).total_time_ns)
  | Column.timeAvg => decide ((statsAt s i).average_time_ns = (statsAt s j).average_time_ns)
  | Column.timeMin => decide ((statsAt s i).min_ns = (statsAt s j).min_ns)
  | Column.timeMax => decide ((statsAt s i).max_ns = (statsAt s j).max_ns)
  | Column.module => decide (getLoadedModuleName (fnAt s i) = getLoadedModuleName (fnAt s j))
  | Column.address => decide ((fnAt s i).address = (fnAt s j).address)

/-- The Nat comparator never holds both ways. -/
theorem natLtB_asym : ∀ x y : Nat, natLtB x y = true → natLtB y x = true → False := by
  intro x y h1 h2
  simp only [natLtB, decide_eq_true_eq] at h1 h2
  omega

/-- The Nat comparator is trichotomous. -/
theorem natLtB_trichotomy : ∀ x y : Nat, natLtB x y = true ∨ natLtB y x = true ∨ x = y := by
  intro x y
  simp only [natLtB, decide_eq_true_eq]
  omega

/-- The Nat comparator is transitive. -/
theorem natLtB_trans : ∀ x y z : Nat,
    natLtB x y = true → natLtB y z = true → natLtB x z = true := by
  intro x y z h1 h2
  simp only [natLtB, decide_eq_true_eq] at h1 h2 ⊢
  omega

/-- The Bool comparator never holds both ways. -/
theorem boolLtB_asym : ∀ x y : Bool, boolLtB x y = true → boolLtB y x = true → False := by
  decide

/-- The Bool comparator is trichotomous. -/
theorem boolLtB_trichotomy : ∀ x y : Bool, boolLtB x y = true ∨ boolLtB y x = true ∨ x = y := by
  decide

/-- The Bool comparator is transitive. -/
theorem boolLtB_trans : ∀ x y z : Bool,
    boolLtB x y = true → boolLtB y z = true → boolLtB x z = true := by
  decide

/-- The string comparator never holds both ways. -/
theorem lexLt_asym : ∀ x y : List Char, lexLt x y = true → lexLt y x = true → False := by
  intro x
  induction x with
  | nil =>
    intro y h1 h2
    cases y with
    | nil => simp [lexLt] at h1
    | cons b t => simp [lexLt] at h2
  | cons a s ih =>
    intro y h1 h2
    cases y with
    | nil => simp [lexLt] at h1
    | cons b t =>
      simp only [lexLt] at h1 h2
      rcases lt_trichotomy a b with hab | hab | hab
      · rw [if_neg (lt_asymm hab), if_pos hab] at h2
        exact absurd h2 (by simp)
      · subst hab
        rw [if_neg (lt_irrefl a), if_neg (lt_irrefl a)] at h1 h2
        exact ih t h1 h2
      · rw [if_neg (lt_asymm hab), if_pos hab] at h1
        exact absurd h1 (by simp)

/-- The string comparator is trichotomous. -/
theorem lexLt_trichotomy : ∀ x y : List Char,
    lexLt x y = true ∨ lexLt y x = true ∨ x = y := by
  intro x
  induction x with
  | nil =>
    intro y
    cases y with
    | nil => right; right; rfl
    | cons b t => left; simp [lexLt]
  | cons a s ih =>
    intro y
    cases y with
    | nil => right; left; simp [lexLt]
    | cons b t =>
      rcases lt_trichotomy a b with hab | hab | hab
      · left
        simp only [lexLt]
        rw [if_pos hab]
      · subst hab
        rcases ih t with h | h | h
        · left
          simp only [lexLt]
          rw [if_neg (lt_irrefl a), if_neg (lt_irrefl a)]
          exact h
        · right; left
          simp only [lexLt]
          rw [if_neg (lt_irrefl a), if_neg (lt_irrefl a)]
          exact h
        · right; right
          rw [h]
      · right; left
        simp only [lexLt]
        rw [if_pos hab]

/-- The string comparator is transitive. -/
theorem lexLt_trans : ∀ x y z : List Char,
    lexLt x y = true → lexLt y z = true → lexLt x z = true := by
  intro x
  induction x with
  | nil =>
    intro y z h1 h2
    cases z with
    | nil =>
      cases y with
      | nil => simp [lexLt] at h1
      | cons b t => simp [lexLt] at h2
    | cons c u => simp [lexLt]
  | cons a s ih =>
    intro y z h1 h2
    cases y with
    | nil => simp [lexLt] at h1
    | cons b t =>
      cases z with
      | nil => simp [lexLt] at h2
      | cons c u =>
        simp only [lexLt] at h1 h2 ⊢
        rcases lt_trichotomy a b with hab | hab | hab
        · rcases lt_trichotomy b c with hbc | hbc | hbc
          · rw [if_pos (lt_trans hab hbc)]
          · rw [if_pos (show a < c from hbc ▸ hab)]
          · rw [if_neg (lt_asymm hbc), if_pos hbc] at h2
            exact absurd h2 (by simp)
        · subst hab
          rw [if_neg (lt_irrefl a), if_neg (lt_irrefl a)] at h1
          rcases lt_trichotomy a c with hac | hac | hac
          · rw [if_pos hac]
          · subst hac
            rw [if_neg (lt_irrefl a), if_neg (lt_irrefl a)] at h2 ⊢
            exact ih t u h1 h2
          · rw [if_neg (lt_asymm hac), if_pos hac] at h2
            exact absurd h2 (by simp)
        · rw [if_neg (lt_asymm hab), if_pos hab] at h1
          exact absurd h1 (by simp)

/-- Stability kernel: for a strict linear Bool comparator over a key map,
rows with equal keys stay in their relative order through mergeSort with
the induced total preorder. -/
theorem pair_sublist_mergeSort_of_klt {K : Type} (klt : K → K → Bool)
    (hasym : ∀ x y, klt x y = true → klt y x = true → False)
    (htric : ∀ x y, klt x y = true ∨ klt y x = true ∨ x = y)
    (htrans : ∀ x y z, klt x y = true → klt y z = true → klt x z = true)
    (key : Nat → K) (l : List Nat) (i j : Nat)
    (hkey : key i = key j) (hsub : List.Sublist [i, j] l) :
    List.Sublist [i, j] (l.mergeSort (fun a b => ! klt (key b) (key a))) := by
  have hirr : ∀ x, klt x x = false := by
    intro x
    cases hx : klt x x with
    | false => rfl
    | true => exact (hasym x x hx hx).elim
  apply List.pair_sublist_mergeSort
  · intro a b c hab hbc
    simp only [Bool.not_eq_true'] at hab hbc ⊢
    cases hca : klt (key c) (key a) with
    | false => rfl
    | true =>
      exfalso
      rcases htric (key a) (key b) with h | h | h
      · have := htrans _ _ _ hca h
        rw [hbc] at this
        exact absurd this (by simp)
      · rw [hab] at h
        exact absurd h (by simp)
      · rw [h] at hca
        rw [hbc] at hca
        exact absurd hca (by simp)
  · intro a b
    cases h1 : klt (key b) (key a) with
    | false => simp
    | true =>
      cases h2 : klt (key a) (key b) with
      | false => simp [h2]
      | true => exact (hasym _ _ h1 h2).elim
  · show (! klt (key j) (key i)) = true
    rw [hkey, hirr (key j)]
    rfl
  · exact hsub

/-- Stability kernel lifted over the ascending toggle of the Compare
helper. -/
theorem pair_sublist_mergeSort_cmpB {K : Type} (klt : K → K → Bool)
    (hasym : ∀ x y, klt x y = true → klt y x = true → False)
    (htric : ∀ x y, klt x y = true ∨ klt y x = true ∨ x = y)
    (htrans : ∀ x y z, klt x y = true → klt y z = true → klt x z = true)
    (key : Nat → K) (asc : Bool) (l : List Nat) (i j : Nat)
    (hkey : key i = key j) (hsub : List.Sublist [i, j] l) :
    List.Sublist [i, j] (l.mergeSort (fun a b => ! cmpB klt asc (key b) (key a))) := by
  cases asc with
  | true =>
    have h := pair_sublist_mergeSort_of_klt klt hasym htric htrans key l i j hkey hsub
    simpa [cmpB] using h
  | false =>
    have h := pair_sublist_mergeSort_of_klt (fun x y => klt y x)
      (fun x y h1 h2 => hasym y x h1 h2)
      (fun x y => by
        rcases htric x y with h | h | h
        · right; left; exact h
        · left; exact h
        · right; right; exact h)
      (fun x y z h1 h2 => htrans z y x h2 h1)
      key l i j hkey hsub
    simpa [cmpB] using h

/-- C5: DoSort is stable: for every sort column and stored direction, two
rows of the VisibleSet whose sort keys are equal keep their relative order
through the sort. -/
theorem doSort_stable (s : ViewState) (i j : Nat)
    (hkey : sortKeyEqB s s.sorting_column i j = true) (hsub : List.Sublist [i, j] s.indices) :
    List.Sublist [i, j] (doSort s).indices := by
  rw [doSort]
  by_cases hc : s.has_capture_data = false
  · rw [if_pos hc]
    exact hsub
  · rw [if_neg hc]
    show List.Sublist [i, j] (s.indices.mergeSort
      (fun a b => ! sorterLt s s.sorting_column (s.sorting_orders s.sorting_column) b a))
    cases hq : s.sorting_column with
    | selected =>
      rw [hq] at hkey
      simp only [sortKeyEqB, decide_eq_true_eq] at hkey
      exact pair_sublist_mergeSort_cmpB boolLtB boolLtB_asym boolLtB_trichotomy boolLtB_trans
        (fun r => isFunctionSelected s (fnAt s r)) (s.sorting_orders Column.selected)
        s.indices i j hkey hsub
    | name =>
      rw [hq] at hkey
      simp only [sortKeyEqB, decide_eq_true_eq] at hkey
      exact pair_sublist_mergeSort_cmpB lexLt lexLt_asym lexLt_trichotomy lexLt_trans
        (fun r => getDisplayName (fnAt s r)) (s.sorting_orders Column.name)
        s.indices i j hkey hsub
    | count =>
      rw [hq] at hkey
      simp only [sortKeyEqB, decide_eq_true_eq] at hkey
      exact pair_sublist_mergeSort_cmpB natLtB natLtB_asym natLtB_trichotomy natLtB_trans
        (fun r => (statsAt s r).count) (s.sorting_orders Column.count)
        s.indices i j hkey hsub
    | timeTotal =>
      rw [hq] at hkey
      simp only [sortKeyEqB, decide_eq_true_eq] at hkey
      exact pair_sublist_mergeSort_cmpB natLtB natLtB_asym natLtB_trichotomy natLtB_trans
        (fun r => (statsAt s r).total_time_ns) (s.sorting_orders Column.timeTotal)
        s.indices i j hkey hsub
    | timeAvg =>
      rw [hq] at hkey
      simp only [sortKeyEqB, decide_eq_true_eq] at hkey
      exact pair_sublist_mergeSort_cmpB natLtB natLtB_asym natLtB_trichotomy natLtB_trans
        (fun r => (statsAt s r).average_time_ns) (s.sorting_orders Column.timeAvg)
        s.indices i j hkey hsub
    | timeMin =>
      rw [hq] at hkey
      simp only [sortKeyEqB, decide_eq_true_eq] at hkey
      exact pair_sublist_mergeSort_cmpB natLtB natLtB_asym natLtB_trichotomy natLtB_trans
        (fun r => (statsAt s r).min_ns) (s.sorting_orders Column.timeMin)
        s.indices i j hkey hsub
    | timeMax =>
      rw [hq] at hkey
      simp only [sortKeyEqB, decide_eq_true_eq] at hkey
      exact pair_sublist_mergeSort_cmpB natLtB natLtB_asym natLtB_trichotomy natLtB_trans
        (fun r => (statsAt s r).max_ns) (s.sorting_orders Column.timeMax)
        s.indices i j hkey hsub
    | module =>
      rw [hq] at hkey
      simp only [sortKeyEqB, decide_eq_true_eq] at hkey
      exact pair_sublist_mergeSort_cmpB lexLt lexLt_asym lexLt_trichotomy lexLt_trans
        (fun r => getLoadedModuleName (fnAt s r)) (s.sorting_orders Column.module)
        s.indices i j hkey hsub
    | address =>
      rw [hq] at hkey
      simp only [sortKeyEqB, decide_eq_true_eq] at hkey
      exact pair_sublist_mergeSort_cmpB natLtB natLtB_asym natLtB_trichotomy natLtB_trans
        (fun r => (fnAt s r).address) (s.sorting_orders Column.address)
        s.indices i j hkey hsub

/-- Example function sharing a display name with c5g but not an address. -/
def c5f : FunctionInfo := { address := 100, pretty_name := ['d', 'u', 'p'], loaded_module_path := [], orbit_type := 0 }

/-- Example function sharing a display name with c5f but not an address. -/
def c5g : FunctionInfo := { address := 200, pretty_name := ['d', 'u', 'p'], loaded_module_path := [], orbit_type := 0 }

/-- Example view state sorting by name with two equal-keyed rows. -/
def c5State : ViewState :=
  { has_capture_data := true
    is_capturing := true
    selected_function_addresses := []
    capture_data := ⟨[], [], []⟩
    functions := [c5f, c5g]
    indices := [0, 1]
    filter := []
    sorting_column := Column.name
    sorting_orders := defaultSortingOrders
    update_period_ms := 300 }

/-- C5, witness: two rows with the same display name keep their order
through a sort by name. -/
theorem doSort_stable_witness :
    sortKeyEqB c5State c5State.sorting_column 0 1 = true ∧ List.Sublist [0, 1] (doSort c5State).indices :=
  ⟨by decide, doSort_stable c5State 0 1 (by decide) (List.Sublist.refl [0, 1])⟩

/-- Modelled from the spec: DataView::OnSort invoked with an empty optional
direction (as OnTimer does) keeps the stored per-column direction, makes
the column current, and re-runs DoSort. -/
def onSortKeepingOrder (s : ViewState) (col : Column) : ViewState :=
  doSort { s with sorting_column := col }

/-- OnTimer: while the session is capturing, re-applies the current sort
column with its stored direction; otherwise does nothing.  The filter is
never touched. -/
def onTimer (s : ViewState) : ViewState :=
  if s.is_capturing = true then onSortKeepingOrder s s.sorting_column else s

/-- The constructor: sets the refresh period to 300 ms and runs
OnDataChanged on the fresh state (DataView base defaults modelled from the
spec: empty filter, empty sequences, default per-column orders). -/
def liveFunctionsDataViewInit (hasCapture isCapturing : Bool) (selAddrs : List Nat)
    (cd : CaptureData) : ViewState :=
  onDataChanged
    { has_capture_data := hasCapture
      is_capturing := isCapturing
      selected_function_addresses := selAddrs
      capture_data := cd
      functions := []
      indices := []
      filter := []
      sorting_column := Column.selected
      sorting_orders := defaultSortingOrders
      update_period_ms := 300 }

/-- DoSort never changes the filter string. -/
theorem doSort_filter (s : ViewState) : (doSort s).filter = s.filter := by
  unfold doSort
  split <;> rfl

/-- DoSort permutes the VisibleSet, so membership is unchanged. -/
theorem doSort_mem_indices (s : ViewState) (x : Nat) :
    x ∈ (doSort s).indices ↔ x ∈ s.indices := by
  unfold doSort
  split
  · exact Iff.rfl
  · simp [List.mem_mergeSort]

/-- C7: OnTimer, on the fixed 300 ms period set by the constructor,
re-applies the current sort column with its stored direction exactly when
the session is capturing, and never re-applies the filter: the filter
string and the membership of the VisibleSet are unchanged by a tick. -/
theorem onTimer_spec (s : ViewState) :
    (onTimer s).filter = s.filter ∧
    (∀ x : Nat, x ∈ (onTimer s).indices ↔ x ∈ s.indices) ∧
    (s.is_capturing = false → onTimer s = s) ∧
    (s.is_capturing = true → onTimer s = doSort s) ∧
    (∀ hc ic sa cd, (liveFunctionsDataViewInit hc ic sa cd).update_period_ms = 300) := by
  refine ⟨?_, ?_, ?_, ?_, ?_⟩
  · unfold onTimer onSortKeepingOrder
    by_cases h : s.is_capturing = true
    · rw [if_pos h]
      exact doSort_filter _
    · rw [if_neg h]
  · intro x
    unfold onTimer onSortKeepingOrder
    by_cases h : s.is_capturing = true
    · rw [if_pos h]
      exact doSort_mem_indices _ x
    · rw [if_neg h]
  · intro h
    unfold onTimer
    rw [if_neg (by simp [h])]
  · intro h
    unfold onTimer onSortKeepingOrder
    rw [if_pos h]
  · intro hc ic sa cd
    unfold liveFunctionsDataViewInit onDataChanged
    split <;> rfl

/-- C7, witness: a tick on a capturing state keeps the filter and the
VisibleSet membership and equals a re-sort; the constructor period is
300 ms. -/
theorem onTimer_spec_witness :
    (onTimer c5State).filter = c5State.filter ∧
    (0 ∈ (onTimer c5State).indices ↔ 0 ∈ c5State.indices) ∧
    onTimer c5State = doSort c5State ∧
    (liveFunctionsDataViewInit true false [] ⟨[], [], []⟩).update_period_ms = 300 :=
  ⟨(onTimer_spec c5State).1, (onTimer_spec c5State).2.1 0,
    (onTimer_spec c5State).2.2.2.1 rfl,
    (onTimer_spec c5State).2.2.2.2 true false [] ⟨[], [], []⟩⟩

/-- The lowest representable uint64 timestamp
(std::numeric_limits lowest). -/
def uint64Lowest : Nat := 0

/-- The highest representable uint64 timestamp (std::numeric_limits max). -/
def uint64Max : Nat := 2 ^ 64 - 1

/-- The two timeline jump actions of the context menu. -/
inductive JumpKind
  | first
  | last

/-- The query OnContextMenu hands to the external timeline index for the
jump-to-first and jump-to-last actions: with exactly one selected row whose
lookup succeeds, the function absolute address is paired with the lowest
(first) or highest (last) representable uint64 timestamp; otherwise no
query is issued (the CHECK aborts or the row lookup faults first). -/
def jumpQuery (s : ViewState) (k : JumpKind) (itemIndices : List Nat) : Option (Nat × Nat) :=
  match itemIndices with
  | [i] =>
    match getSelectedFunction s i with
    | Except.ok f =>
      some (getAbsoluteAddress s.capture_data f,
        match k with
        | JumpKind.first => uint64Lowest
        | JumpKind.last => uint64Max)
    | Except.error _ => none
  | _ => none

/-- C9: the jump-to-first action queries the timeline index with the
selected function absolute address and the smallest representable uint64
timestamp, 0, and jump-to-last with the same address and the largest,
2 ^ 64 - 1; nothing else is supplied. -/
theorem jumpQuery_bounds (s : ViewState) (i : Nat) (f : FunctionInfo)
    (h : getSelectedFunction s i = Except.ok f) :
    jumpQuery s JumpKind.first [i] = some (getAbsoluteAddress s.capture_data f, 0) ∧
    jumpQuery s JumpKind.last [i] = some (getAbsoluteAddress s.capture_data f, 2 ^ 64 - 1) := by
  have h1 : jumpQuery s JumpKind.first [i]
      = match getSelectedFunction s i with
        | Except.ok f => some (getAbsoluteAddress s.capture_data f, uint64Lowest)
        | Except.error _ => none := rfl
  have h2 : jumpQuery s JumpKind.last [i]
      = match getSelectedFunction s i with
        | Except.ok f => some (getAbsoluteAddress s.capture_data f, uint64Max)
        | Except.error _ => none := rfl
  rw [h1, h2, h]
  exact ⟨rfl, rfl⟩

/-- C9, witness: the jump queries issued from the filtered example state. -/
theorem jumpQuery_bounds_witness :
    jumpQuery c4State JumpKind.first [0]
        = some (getAbsoluteAddress c4State.capture_data wFn, 0) ∧
    jumpQuery c4State JumpKind.last [0]
        = some (getAbsoluteAddress c4State.capture_data wFn, 2 ^ 64 - 1) :=
  jumpQuery_bounds c4State 0 wFn (by decide)

end OrbitLive
